import Mathlib

/-!
Shallow embedding of the process-introspection helpers in
src/psutil/arch/bsd/freebsd.c and verification of the specified
properties of psutil_get_proc_list, psutil_get_cmd_args,
psutil_get_cmdline and psutil_pid_exists.

Kernel interactions (sysctl, kill) and malloc are modelled as explicit
oracle parameters: each embedded function takes the sequence of results
the kernel and the allocator would produce, and returns the value the C
function would compute from them, together with allocation accounting
(number of successful malloc calls and number of free calls) so that
resource claims can be stated.
-/

namespace PsutilFreebsd

/-- FreeBSD errno value for operation not permitted. -/
def EPERM : Nat := 1

/-- FreeBSD errno value for no such process. -/
def ESRCH : Nat := 3

/-- FreeBSD errno value for cannot allocate memory. -/
def ENOMEM : Nat := 12

/-! ## Liveness checker: psutil_pid_exists (freebsd.c lines 216 to 234) -/

/-- Result of the no-op signal probe kill(pid, 0): on success kill
returns 0; on failure kill returns -1 and sets errno to e. -/
inductive ProbeResult where
  | ok : ProbeResult
  | err : Nat → ProbeResult
deriving DecidableEq

/-- Embedding of psutil_pid_exists. The C code stores the return value
of kill in ret (0 on success, -1 on failure) and then compares ret,
not errno, against ESRCH and EPERM; the embedding reproduces exactly
that comparison. -/
def psutil_pid_exists (pid : Int) (probe : ProbeResult) : Int :=
  if pid < 0 then 0
  else
    let ret : Int :=
      match probe with
      | ProbeResult.ok => 0
      | ProbeResult.err _ => -1
    if ret = 0 then 1
    else
      if ret = (ESRCH : Nat) then 0
      else
        if ret = (EPERM : Nat) then 1
        else -1

/-! ## Argument decoder: the scan loop of psutil_get_cmdline
(freebsd.c lines 186 to 196) -/

/-- strlen on a byte list: the number of bytes before the first null
byte. The none result models strlen running off the end of the
allocation when no null byte is present at all, which is undefined
behaviour in the C program. -/
def cstrlen : List Nat → Option Nat
  | [] => none
  | b :: rest => if b = 0 then some 0 else (cstrlen rest).map (fun n => n + 1)

/-- The scan loop of psutil_get_cmdline. phys is the full content of
the allocated buffer (argmax bytes), argsize the logical length
reported by the kernel, pos the current scan offset. Each iteration
takes the bytes from pos up to the first null byte found by strlen,
note: strlen is not bounded by argsize, then advances pos past that
null byte, while pos < argsize. The none result propagates the
undefined behaviour of strlen leaving the allocation. -/
def decodeFrom (phys : List Nat) (argsize : Nat) (pos : Nat) :
    Option (List (List Nat)) :=
  if h : pos < argsize then
    match cstrlen (phys.drop pos) with
    | none => none
    | some len =>
      match decodeFrom phys argsize (pos + len + 1) with
      | none => none
      | some rest => some (((phys.drop pos).take len) :: rest)
  else some []
termination_by argsize - pos
decreasing_by omega

/-- Blob construction described by the specification for the round
trip property: join the argument strings with null separators and a
trailing null. -/
def encodeArgs : List (List Nat) → List Nat
  | [] => []
  | s :: rest => s ++ 0 :: encodeArgs rest

/-! ## Process enumerator: psutil_get_proc_list (freebsd.c lines 35 to 111) -/

/-- Result of one sysctl call: on success sysctl returns 0 and stores
a byte count into the length output parameter; on failure it returns
-1 and sets errno to e (in which case the embedding leaves the length
variable unchanged). -/
inductive SysctlRes where
  | ok : Nat → SysctlRes
  | err : Nat → SysctlRes
deriving DecidableEq

/-- The kernel and allocator responses consumed by one iteration of
the do-while loop of psutil_get_proc_list: the sizing query with a
null buffer, whether malloc succeeds, and the filling query with the
allocated buffer. Later fields are ignored when an earlier step
already failed. -/
structure Round where
  sizeQ : SysctlRes
  mallocOk : Bool
  fillQ : SysctlRes
deriving DecidableEq

/-- Observable outcome of psutil_get_proc_list: the returned err
value, whether the procList output is a non-null buffer, the final
value of the length variable, the procCount output, and allocation
accounting (successful malloc calls and free calls). -/
structure PLOut where
  err : Nat
  buf : Bool
  length : Nat
  count : Nat
  mallocs : Nat
  frees : Nat
deriving DecidableEq

/-- The do-while loop of psutil_get_proc_list, followed by the clean
up code after it. recSize is sizeof(struct kinfo_proc), m and f the
malloc and free counts accumulated so far. The oracle list rounds
supplies kernel and allocator behaviour per iteration; none means the
oracle was exhausted before the loop terminated. procCount is length
divided by recSize, computed at exit from the final length value
exactly as the C code does. -/
def runProcList (recSize : Nat) : List Round → Nat → Nat → Option PLOut
  | [], _, _ => none
  | r :: rest, m, f =>
    match r.sizeQ with
    | SysctlRes.err e => some ⟨e, false, 0, 0 / recSize, m, f⟩
    | SysctlRes.ok L =>
      if r.mallocOk then
        match r.fillQ with
        | SysctlRes.ok actual => some ⟨0, true, actual, actual / recSize, m + 1, f⟩
        | SysctlRes.err e =>
          if e = ENOMEM then runProcList recSize rest (m + 1) (f + 1)
          else some ⟨e, false, L, L / recSize, m + 1, f + 1⟩
      else some ⟨ENOMEM, false, L, L / recSize, m, f⟩

/-- Embedding of psutil_get_proc_list: run the loop with zero initial
allocation counters. -/
def psutil_get_proc_list (recSize : Nat) (rounds : List Round) : Option PLOut :=
  runProcList recSize rounds 0 0

/-- A sysctl result is well formed when a failure carries a nonzero
errno, as the C library guarantees. -/
def SysctlRes.wfB : SysctlRes → Bool
  | SysctlRes.ok _ => true
  | SysctlRes.err e => e != 0

/-- A round is well formed when both sysctl results are. -/
def Round.wfB (r : Round) : Bool :=
  r.sizeQ.wfB && r.fillQ.wfB

/-! ## Argument fetcher: psutil_get_cmd_args (freebsd.c lines 127 to 165) -/

/-- Kernel and allocator responses consumed by one call of
psutil_get_cmd_args for a given pid: the KERN_ARGMAX sizing query,
whether malloc(argmax) succeeds, and the KERN_PROC_ARGS query for the
pid. Later fields are ignored when an earlier step already failed. -/
structure ArgsKernel where
  argmaxQ : SysctlRes
  mallocOk : Bool
  procArgsQ : SysctlRes
deriving DecidableEq

/-- Observable outcome of psutil_get_cmd_args: some argsize when a
buffer is returned with that argsize output, none when the function
returns NULL, plus malloc and free accounting. -/
structure CmdArgsOut where
  res : Option Nat
  mallocs : Nat
  frees : Nat
deriving DecidableEq

/-- Embedding of psutil_get_cmd_args. On KERN_ARGMAX failure it
returns NULL with nothing allocated; on malloc failure it returns
NULL; on KERN_PROC_ARGS failure it frees the buffer and returns NULL,
discarding the errno entirely; on success it returns the buffer and
sets the argsize output to the byte count the kernel wrote. -/
def psutil_get_cmd_args (pid : Int) (k : ArgsKernel) : CmdArgsOut :=
  match k.argmaxQ with
  | SysctlRes.err _ => ⟨none, 0, 0⟩
  | SysctlRes.ok _argmax =>
    if k.mallocOk then
      match k.procArgsQ with
      | SysctlRes.err _ => ⟨none, 1, 1⟩
      | SysctlRes.ok size => ⟨some size, 1, 0⟩
    else ⟨none, 0, 0⟩

/-! ## psutil_get_cmdline (freebsd.c lines 169 to 207) -/

/-- Result of psutil_get_cmdline: a decoded argument list on success,
error when the function returns NULL, ub when the scan loop commits
undefined behaviour by reading past the end of the allocation. -/
inductive CmdlineResult where
  | ub : CmdlineResult
  | error : CmdlineResult
  | ok : List (List Nat) → CmdlineResult
deriving DecidableEq

/-- Embedding of psutil_get_cmdline. A negative pid returns the empty
list immediately, before psutil_get_cmd_args is called. Otherwise the
fetched buffer (whose full argmax-sized content is phys) is scanned
from offset 0; the explicit argsize > 0 guard of the C code is
subsumed by the loop condition pos < argsize. -/
def psutil_get_cmdline (pid : Int) (k : ArgsKernel) (phys : List Nat) :
    CmdlineResult :=
  if pid < 0 then CmdlineResult.ok []
  else
    match (psutil_get_cmd_args pid k).res with
    | none => CmdlineResult.error
    | some argsize =>
      match decodeFrom phys argsize 0 with
      | none => CmdlineResult.ub
      | some args => CmdlineResult.ok args

/-! ## Helper lemmas -/

/-- Splitting a well formedness assumption on a cons of rounds. -/
theorem all_wfB_cons {r : Round} {rest : List Round}
    (h : (r :: rest).all Round.wfB = true) :
    r.sizeQ.wfB = true ∧ r.fillQ.wfB = true ∧ rest.all Round.wfB = true := by
  rw [List.all_cons, Bool.and_eq_true] at h
  have h1 := h.1
  rw [Round.wfB, Bool.and_eq_true] at h1
  exact ⟨h1.1, h1.2, h.2⟩

/-- A well formed failing sysctl result carries a nonzero errno. -/
theorem wfB_err {e : Nat} (h : (SysctlRes.err e).wfB = true) : e ≠ 0 := by
  simpa [SysctlRes.wfB] using h

/-- On every outcome of the loop the procCount output is the final
length divided by recSize, with the division silently rounding down. -/
theorem runProcList_count (recSize : Nat) :
    ∀ (rounds : List Round) (m f : Nat) (o : PLOut),
      runProcList recSize rounds m f = some o → o.count = o.length / recSize := by
  intro rounds
  induction rounds with
  | nil =>
    intro m f o h
    simp [runProcList] at h
  | cons r rest ih =>
    intro m f o h
    rcases r with ⟨sq, mo, fq⟩
    cases sq with
    | err e =>
      simp [runProcList] at h
      rw [← h]
      simp
    | ok L =>
      cases mo with
      | false =>
        simp [runProcList] at h
        rw [← h]
      | true =>
        cases fq with
        | ok A =>
          simp [runProcList] at h
          rw [← h]
        | err e =>
          by_cases he : e = ENOMEM
          · simp [runProcList, he] at h
            exact ih _ _ _ h
          · simp [runProcList, he] at h
            rw [← h]

/-- Postcondition of the loop: with well formed kernel responses and
balanced allocation counters at entry, the returned errno is zero
exactly when a buffer is handed to the caller, and every successful
malloc is matched by a free except for the returned buffer. -/
theorem runProcList_post (recSize : Nat) :
    ∀ (rounds : List Round) (m f : Nat) (o : PLOut),
      rounds.all Round.wfB = true → m = f →
      runProcList recSize rounds m f = some o →
      ((o.err = 0 ↔ o.buf = true) ∧
        o.mallocs = o.frees + (if o.buf then 1 else 0)) := by
  intro rounds
  induction rounds with
  | nil =>
    intro m f o _ _ h
    simp [runProcList] at h
  | cons r rest ih =>
    intro m f o hwf hmf h
    obtain ⟨hws, hwfq, hwrest⟩ := all_wfB_cons hwf
    rcases r with ⟨sq, mo, fq⟩
    cases sq with
    | err e =>
      have he : e ≠ 0 := wfB_err hws
      simp [runProcList] at h
      rw [← h]
      simp [he, hmf]
    | ok L =>
      cases mo with
      | false =>
        simp [runProcList] at h
        rw [← h]
        simp [ENOMEM, hmf]
      | true =>
        cases fq with
        | ok A =>
          simp [runProcList] at h
          rw [← h]
          simp [hmf]
        | err e =>
          have he : e ≠ 0 := wfB_err hwfq
          by_cases hen : e = ENOMEM
          · simp [runProcList, hen] at h
            exact ih _ _ _ hwrest (by omega) h
          · simp [runProcList, hen] at h
            rw [← h]
            simp [he, hmf]

/-- Every nonzero errno returned by the loop originates either from a
sizing query failure (propagated verbatim), from an allocation failure
(as ENOMEM), or from a filling query failure whose errno is not
ENOMEM; a filling query failure with ENOMEM is never surfaced. -/
theorem runProcList_err_origin (recSize : Nat) :
    ∀ (rounds : List Round) (m f : Nat) (o : PLOut),
      runProcList recSize rounds m f = some o → o.err ≠ 0 →
      (∃ r ∈ rounds, r.sizeQ = SysctlRes.err o.err) ∨
      (o.err = ENOMEM ∧ ∃ r ∈ rounds, r.mallocOk = false) ∨
      (∃ r ∈ rounds, r.fillQ = SysctlRes.err o.err ∧ o.err ≠ ENOMEM) := by
  intro rounds
  induction rounds with
  | nil =>
    intro m f o h
    simp [runProcList] at h
  | cons r rest ih =>
    intro m f o h hne
    rcases r with ⟨sq, mo, fq⟩
    cases sq with
    | err e =>
      simp [runProcList] at h
      left
      refine ⟨⟨SysctlRes.err e, mo, fq⟩, List.mem_cons_self _ _, ?_⟩
      rw [← h]
    | ok L =>
      cases mo with
      | false =>
        simp [runProcList] at h
        right
        left
        constructor
        · rw [← h]
        · exact ⟨⟨SysctlRes.ok L, false, fq⟩, List.mem_cons_self _ _, rfl⟩
      | true =>
        cases fq with
        | ok A =>
          simp [runProcList] at h
          rw [← h] at hne
          simp at hne
        | err e =>
          by_cases hen : e = ENOMEM
          · simp [runProcList, hen] at h
            rcases ih _ _ _ h hne with h1 | h2 | h3
            · obtain ⟨r, hr, hre⟩ := h1
              exact Or.inl ⟨r, List.mem_cons_of_mem _ hr, hre⟩
            · obtain ⟨ha, r, hr, hre⟩ := h2
              exact Or.inr (Or.inl ⟨ha, r, List.mem_cons_of_mem _ hr, hre⟩)
            · obtain ⟨r, hr, hre⟩ := h3
              exact Or.inr (Or.inr ⟨r, List.mem_cons_of_mem _ hr, hre⟩)
          · simp [runProcList, hen] at h
            right
            right
            refine ⟨⟨SysctlRes.ok L, true, SysctlRes.err e⟩,
              List.mem_cons_self _ _, ?_, ?_⟩
            · rw [← h]
            · rw [← h]
              exact hen

/-- A successful loop outcome comes from a round whose sizing and
filling queries both succeeded; the final length is the byte count
reported by the filling query and the count is that length divided by
recSize. -/
theorem runProcList_success (recSize : Nat) :
    ∀ (rounds : List Round) (m f : Nat) (o : PLOut),
      rounds.all Round.wfB = true →
      runProcList recSize rounds m f = some o → o.err = 0 →
      ∃ r ∈ rounds, ∃ L A, r.sizeQ = SysctlRes.ok L ∧ r.fillQ = SysctlRes.ok A ∧
        o.buf = true ∧ o.length = A ∧ o.count = A / recSize := by
  intro rounds
  induction rounds with
  | nil =>
    intro m f o _ h
    simp [runProcList] at h
  | cons r rest ih =>
    intro m f o hwf h h0
    obtain ⟨hws, hwfq, hwrest⟩ := all_wfB_cons hwf
    rcases r with ⟨sq, mo, fq⟩
    cases sq with
    | err e =>
      have he : e ≠ 0 := wfB_err hws
      simp [runProcList] at h
      rw [← h] at h0
      simp at h0
      exact absurd h0 he
    | ok L =>
      cases mo with
      | false =>
        simp [runProcList] at h
        rw [← h] at h0
        simp [ENOMEM] at h0
      | true =>
        cases fq with
        | ok A =>
          simp [runProcList] at h
          refine ⟨⟨SysctlRes.ok L, true, SysctlRes.ok A⟩, List.mem_cons_self _ _,
            L, A, rfl, rfl, ?_, ?_, ?_⟩ <;> rw [← h]
        | err e =>
          have he : e ≠ 0 := wfB_err hwfq
          by_cases hen : e = ENOMEM
          · simp [runProcList, hen] at h
            obtain ⟨r, hr, rest2⟩ := ih _ _ _ hwrest h h0
            exact ⟨r, List.mem_cons_of_mem _ hr, rest2⟩
          · simp [runProcList, hen] at h
            rw [← h] at h0
            simp at h0
            exact absurd h0 he

/-- strlen of a null free string followed by a null terminator and
anything else is the length of the string. -/
theorem cstrlen_append (s t : List Nat) (hs : (0 : Nat) ∉ s) :
    cstrlen (s ++ 0 :: t) = some s.length := by
  induction s with
  | nil => simp [cstrlen]
  | cons b rest ih =>
    have hb : b ≠ 0 := by
      intro h
      exact hs (by simp [h])
    have hrest : (0 : Nat) ∉ rest := fun h => hs (List.mem_cons_of_mem _ h)
    simp [cstrlen, hb, ih hrest]

/-- Generalised round trip: scanning an encoded blob placed after an
arbitrary already consumed prefix recovers exactly the encoded
strings. -/
theorem decode_encode_aux (S : List (List Nat)) :
    ∀ pre : List Nat, (∀ s ∈ S, (0 : Nat) ∉ s) →
    decodeFrom (pre ++ encodeArgs S) (pre.length + (encodeArgs S).length)
      pre.length = some S := by
  induction S with
  | nil =>
    intro pre _
    rw [decodeFrom]
    simp [encodeArgs]
  | cons s rest ih =>
    intro pre hS
    have hs : (0 : Nat) ∉ s := hS s (List.mem_cons_self _ _)
    have hrest : ∀ a ∈ rest, (0 : Nat) ∉ a := fun a ha =>
      hS a (List.mem_cons_of_mem _ ha)
    have henc : encodeArgs (s :: rest) = s ++ 0 :: encodeArgs rest := rfl
    have hlt : pre.length < pre.length + (encodeArgs (s :: rest)).length := by
      rw [henc]
      simp
    have hdrop : (pre ++ encodeArgs (s :: rest)).drop pre.length
        = s ++ 0 :: encodeArgs rest := by
      rw [List.drop_left, henc]
    have h1 : pre ++ encodeArgs (s :: rest)
        = (pre ++ s ++ [0]) ++ encodeArgs rest := by
      rw [henc]
      simp
    have h2 : pre.length + (encodeArgs (s :: rest)).length
        = (pre ++ s ++ [0]).length + (encodeArgs rest).length := by
      rw [henc]
      simp
      omega
    have h3 : pre.length + s.length + 1 = (pre ++ s ++ [0]).length := by
      simp
      omega
    have hrec := ih (pre ++ s ++ [0]) hrest
    rw [decodeFrom, dif_pos hlt, hdrop, cstrlen_append s _ hs]
    simp only []
    rw [List.take_left]
    rw [h1, h2, h3, hrec]

/-! ## Claim theorems -/

/-- Claim C1. The claim states that a failing probe with errno ESRCH
yields Dead (0) and a failing probe with errno EPERM yields Alive (1).
The code instead compares the kill return value (-1 on every failure)
against ESRCH and EPERM, so every failing probe, ESRCH and EPERM
included, takes the error branch and returns -1, contradicting the
function comment that promises 0 for a nonexistent pid. This theorem
evaluates the embedded code at the failing inputs: probe failures with
errno ESRCH and errno EPERM both return -1; the succeeding probe and
the negative pid branches behave as claimed. -/
theorem claim_C1_pid_exists_errno_bug :
    psutil_pid_exists 12345 (ProbeResult.err ESRCH) = -1 ∧
    psutil_pid_exists 12345 (ProbeResult.err EPERM) = -1 ∧
    psutil_pid_exists 12345 ProbeResult.ok = 1 ∧
    psutil_pid_exists (-1) (ProbeResult.err ESRCH) = 0 ∧
    psutil_pid_exists (-1) ProbeResult.ok = 0 := by
  decide

/-- Claim C2. The claim states that a blob whose final segment has no
trailing null inside argsize decodes to a final argument equal to the
remaining bytes up to argsize and that no byte at or beyond argsize is
read. The scan loop instead calls strlen, which is not bounded by
argsize: with buffer content 65, 66, 0 and argsize 1 it returns the
final argument 65, 66 rather than 65, and the result differs from the
one for content 65, 0, 0 although both agree on the first argsize
bytes, so bytes at offsets beyond argsize are read; with no null byte
anywhere in the allocation the scan runs off the buffer entirely. -/
theorem claim_C2_truncated_blob_overread :
    decodeFrom [65, 66, 0] 1 0 = some [[65, 66]] ∧
    decodeFrom [65, 0, 0] 1 0 = some [[65]] ∧
    decodeFrom [65, 66] 1 0 = none := by
  refine ⟨?_, ?_, ?_⟩ <;> simp [decodeFrom, cstrlen]

/-- Claim C3, counterexample. With record size 8 and a kernel that
reports 12 bytes written, the enumeration succeeds with err 0, count 1
and length 12, yet 1 * 8 is not 12: the nonzero remainder is silently
truncated, not treated as a fatal contract violation, refuting the
claim as stated. -/
theorem claim_C3_count_counterexample :
    psutil_get_proc_list 8 [⟨SysctlRes.ok 12, true, SysctlRes.ok 12⟩]
      = some ⟨0, true, 12, 1, 1, 0⟩ ∧ 1 * 8 ≠ 12 := by
  decide

/-- Claim C3, amended. On every outcome the record count is the
reported byte length divided by the record size rounded down, and the
product count times record size equals the byte length exactly when
the record size divides the byte length; a remainder is silently
dropped. -/
theorem claim_C3_count_floor_div (recSize : Nat) (rounds : List Round) (o : PLOut)
    (h : psutil_get_proc_list recSize rounds = some o) :
    o.count = o.length / recSize ∧
    (recSize ∣ o.length → o.count * recSize = o.length) := by
  have hc := runProcList_count recSize rounds 0 0 o h
  refine ⟨hc, fun hd => ?_⟩
  rw [hc]
  exact Nat.div_mul_cancel hd

/-- Witness for the amended claim C3 at record size 8 with a 16 byte
result. -/
theorem claim_C3_count_floor_div_witness :
    (psutil_get_proc_list 8 [⟨SysctlRes.ok 16, true, SysctlRes.ok 16⟩]
       = some ⟨0, true, 16, 2, 1, 0⟩) ∧
    ((⟨0, true, 16, 2, 1, 0⟩ : PLOut).count
        = (⟨0, true, 16, 2, 1, 0⟩ : PLOut).length / 8 ∧
      (8 ∣ (⟨0, true, 16, 2, 1, 0⟩ : PLOut).length →
        (⟨0, true, 16, 2, 1, 0⟩ : PLOut).count * 8
          = (⟨0, true, 16, 2, 1, 0⟩ : PLOut).length)) :=
  ⟨by decide,
    claim_C3_count_floor_div 8 [⟨SysctlRes.ok 16, true, SysctlRes.ok 16⟩]
      ⟨0, true, 16, 2, 1, 0⟩ (by decide)⟩

/-- Claim C4. For every terminating execution of psutil_get_proc_list
with well formed kernel responses, the returned errno is zero exactly
when a non-null buffer is returned, and every successful malloc is
matched by a free except for the single buffer handed to the caller on
success: no allocation leaks on any exit path, the retry path
included. -/
theorem claim_C4_success_iff_buffer (recSize : Nat) (rounds : List Round)
    (o : PLOut) (hwf : rounds.all Round.wfB = true)
    (h : psutil_get_proc_list recSize rounds = some o) :
    (o.err = 0 ↔ o.buf = true) ∧
    o.mallocs = o.frees + (if o.buf then 1 else 0) :=
  runProcList_post recSize rounds 0 0 o hwf rfl h

/-- Witness for claim C4 on a run that retries once and then fails
fatally in the filling query. -/
theorem claim_C4_success_iff_buffer_witness :
    (([⟨SysctlRes.ok 16, true, SysctlRes.err 12⟩,
       ⟨SysctlRes.ok 24, true, SysctlRes.err 5⟩] : List Round).all Round.wfB
        = true ∧
     psutil_get_proc_list 8 [⟨SysctlRes.ok 16, true, SysctlRes.err 12⟩,
       ⟨SysctlRes.ok 24, true, SysctlRes.err 5⟩] = some ⟨5, false, 24, 3, 2, 2⟩) ∧
    (((⟨5, false, 24, 3, 2, 2⟩ : PLOut).err = 0 ↔
        (⟨5, false, 24, 3, 2, 2⟩ : PLOut).buf = true) ∧
      (⟨5, false, 24, 3, 2, 2⟩ : PLOut).mallocs
        = (⟨5, false, 24, 3, 2, 2⟩ : PLOut).frees
          + (if (⟨5, false, 24, 3, 2, 2⟩ : PLOut).buf then 1 else 0)) :=
  ⟨⟨by decide, by decide⟩,
    claim_C4_success_iff_buffer 8
      [⟨SysctlRes.ok 16, true, SysctlRes.err 12⟩,
       ⟨SysctlRes.ok 24, true, SysctlRes.err 5⟩]
      ⟨5, false, 24, 3, 2, 2⟩ (by decide) (by decide)⟩

/-- Claim C5. The loop of psutil_get_proc_list retries, freeing the
buffer and restarting from the sizing query, exactly when the filling
query fails with ENOMEM; a sizing query failure returns its errno
verbatim, a filling query failure with any other errno frees the
buffer and returns that errno verbatim, an allocation failure returns
ENOMEM, and a surfaced nonzero errno never originates from a filling
query ENOMEM failure. -/
theorem claim_C5_retry_exactly_on_requery_enomem (recSize : Nat) :
    (∀ (r : Round) (rest : List Round) (m f L : Nat),
       r.sizeQ = SysctlRes.ok L → r.mallocOk = true →
       r.fillQ = SysctlRes.err ENOMEM →
       runProcList recSize (r :: rest) m f
         = runProcList recSize rest (m + 1) (f + 1)) ∧
    (∀ (r : Round) (rest : List Round) (m f e : Nat),
       r.sizeQ = SysctlRes.err e →
       runProcList recSize (r :: rest) m f
         = some ⟨e, false, 0, 0 / recSize, m, f⟩) ∧
    (∀ (r : Round) (rest : List Round) (m f L e : Nat),
       r.sizeQ = SysctlRes.ok L → r.mallocOk = true →
       r.fillQ = SysctlRes.err e → e ≠ ENOMEM →
       runProcList recSize (r :: rest) m f
         = some ⟨e, false, L, L / recSize, m + 1, f + 1⟩) ∧
    (∀ (r : Round) (rest : List Round) (m f L : Nat),
       r.sizeQ = SysctlRes.ok L → r.mallocOk = false →
       runProcList recSize (r :: rest) m f
         = some ⟨ENOMEM, false, L, L / recSize, m, f⟩) ∧
    (∀ (rounds : List Round) (o : PLOut),
       psutil_get_proc_list recSize rounds = some o → o.err ≠ 0 →
       (∃ r ∈ rounds, r.sizeQ = SysctlRes.err o.err) ∨
       (o.err = ENOMEM ∧ ∃ r ∈ rounds, r.mallocOk = false) ∨
       (∃ r ∈ rounds, r.fillQ = SysctlRes.err o.err ∧ o.err ≠ ENOMEM)) := by
  refine ⟨?_, ?_, ?_, ?_, ?_⟩
  · intro r rest m f L h1 h2 h3
    rcases r with ⟨sq, mo, fq⟩
    simp only at h1 h2 h3
    subst h1
    subst h2
    subst h3
    simp [runProcList]
  · intro r rest m f e h1
    rcases r with ⟨sq, mo, fq⟩
    simp only at h1
    subst h1
    simp [runProcList]
  · intro r rest m f L e h1 h2 h3 h4
    rcases r with ⟨sq, mo, fq⟩
    simp only at h1 h2 h3
    subst h1
    subst h2
    subst h3
    simp [runProcList, h4]
  · intro r rest m f L h1 h2
    rcases r with ⟨sq, mo, fq⟩
    simp only at h1 h2
    subst h1
    subst h2
    simp [runProcList]
  · intro rounds o h hne
    exact runProcList_err_origin recSize rounds 0 0 o h hne

/-- Witness for claim C5: a concrete round whose filling query fails
with ENOMEM is discarded and the loop restarts on the remaining
oracle with the buffer freed. -/
theorem claim_C5_retry_witness :
    ((⟨SysctlRes.ok 16, true, SysctlRes.err 12⟩ : Round).sizeQ
        = SysctlRes.ok 16 ∧
     (⟨SysctlRes.ok 16, true, SysctlRes.err 12⟩ : Round).mallocOk = true ∧
     (⟨SysctlRes.ok 16, true, SysctlRes.err 12⟩ : Round).fillQ
        = SysctlRes.err ENOMEM) ∧
    runProcList 8 [⟨SysctlRes.ok 16, true, SysctlRes.err 12⟩,
        ⟨SysctlRes.ok 24, true, SysctlRes.ok 24⟩] 0 0
      = runProcList 8 [⟨SysctlRes.ok 24, true, SysctlRes.ok 24⟩] 1 1 :=
  ⟨⟨rfl, rfl, rfl⟩,
    (claim_C5_retry_exactly_on_requery_enomem 8).1
      ⟨SysctlRes.ok 16, true, SysctlRes.err 12⟩
      [⟨SysctlRes.ok 24, true, SysctlRes.ok 24⟩] 0 0 16 rfl rfl rfl⟩

/-- Claim C6. Every successful enumeration terminates in a round whose
sizing query reported some L and whose filling query succeeded
reporting the actual byte count A; the final length is A and the
count is A divided by recSize, derived from the actual byte count of
the final successful query rather than from the allocated size L. -/
theorem claim_C6_count_from_actual_length (recSize : Nat) (rounds : List Round)
    (o : PLOut) (hwf : rounds.all Round.wfB = true)
    (h : psutil_get_proc_list recSize rounds = some o) (h0 : o.err = 0) :
    ∃ r ∈ rounds, ∃ L A, r.sizeQ = SysctlRes.ok L ∧ r.fillQ = SysctlRes.ok A ∧
      o.buf = true ∧ o.length = A ∧ o.count = A / recSize :=
  runProcList_success recSize rounds 0 0 o hwf h h0

/-- Witness for claim C6 on a run whose filling query writes fewer
bytes (16) than the allocated size (24): the count is 2, computed from
16, not 3 from 24. -/
theorem claim_C6_count_from_actual_length_witness :
    (([⟨SysctlRes.ok 24, true, SysctlRes.ok 16⟩] : List Round).all Round.wfB
        = true ∧
     psutil_get_proc_list 8 [⟨SysctlRes.ok 24, true, SysctlRes.ok 16⟩]
        = some ⟨0, true, 16, 2, 1, 0⟩ ∧
     (⟨0, true, 16, 2, 1, 0⟩ : PLOut).err = 0) ∧
    (∃ r ∈ [(⟨SysctlRes.ok 24, true, SysctlRes.ok 16⟩ : Round)], ∃ L A,
       r.sizeQ = SysctlRes.ok L ∧ r.fillQ = SysctlRes.ok A ∧
       (⟨0, true, 16, 2, 1, 0⟩ : PLOut).buf = true ∧
       (⟨0, true, 16, 2, 1, 0⟩ : PLOut).length = A ∧
       (⟨0, true, 16, 2, 1, 0⟩ : PLOut).count = A / 8) :=
  ⟨⟨by decide, by decide, by decide⟩,
    claim_C6_count_from_actual_length 8
      [⟨SysctlRes.ok 24, true, SysctlRes.ok 16⟩]
      ⟨0, true, 16, 2, 1, 0⟩ (by decide) (by decide) (by decide)⟩

/-- Claim C7. For every list of argument strings without embedded null
bytes, encoding by joining with null separators and a trailing null
and then decoding with the scan loop yields exactly the original list,
in order and byte for byte. -/
theorem claim_C7_roundtrip (S : List (List Nat))
    (h : ∀ s ∈ S, (0 : Nat) ∉ s) :
    decodeFrom (encodeArgs S) (encodeArgs S).length 0 = some S := by
  have ha := decode_encode_aux S [] h
  simpa using ha

/-- Witness for claim C7 on the two argument list 65 66 and 67. -/
theorem claim_C7_roundtrip_witness :
    (∀ s ∈ [[65, 66], [67]], (0 : Nat) ∉ s) ∧
    decodeFrom (encodeArgs [[65, 66], [67]]) (encodeArgs [[65, 66], [67]]).length 0
      = some [[65, 66], [67]] :=
  ⟨by decide, claim_C7_roundtrip [[65, 66], [67]] (by decide)⟩

/-- Claim C8. Decoding a blob of logical length zero yields the empty
argument list for every buffer content, and through
psutil_get_cmdline a kernel that reports zero argument bytes produces
the empty list result, not an error. -/
theorem claim_C8_empty_blob (phys : List Nat) :
    decodeFrom phys 0 0 = some [] ∧
    psutil_get_cmdline 7 ⟨SysctlRes.ok 4096, true, SysctlRes.ok 0⟩ phys
      = CmdlineResult.ok [] := by
  have hd : decodeFrom phys 0 0 = some [] := by
    rw [decodeFrom]
    simp
  refine ⟨hd, ?_⟩
  simp [psutil_get_cmdline, psutil_get_cmd_args, hd]

/-- Claim C9. For every pid and every errno of the per process
argument query, a failing query makes psutil_get_cmd_args return NULL
with the allocated buffer freed: the outcome is one constant generic
failure, independent of the errno, and the malloc is matched by a
free before returning. -/
theorem claim_C9_fetch_failure_generic (pid : Int) (argmax e : Nat) :
    psutil_get_cmd_args pid ⟨SysctlRes.ok argmax, true, SysctlRes.err e⟩
      = ⟨none, 1, 1⟩ :=
  rfl

/-- Claim C10. For every negative pid, psutil_get_cmdline returns the
empty argument list immediately, whatever the kernel or allocator
would have answered: the result is independent of the fetch oracle,
so no query is issued. -/
theorem claim_C10_negative_pid_empty (pid : Int) (k : ArgsKernel)
    (phys : List Nat) (h : pid < 0) :
    psutil_get_cmdline pid k phys = CmdlineResult.ok [] := by
  simp [psutil_get_cmdline, h]

/-- Witness for claim C10 at pid -5 with a kernel that would fail
every query. -/
theorem claim_C10_negative_pid_empty_witness :
    ((-5 : Int) < 0) ∧
    psutil_get_cmdline (-5) ⟨SysctlRes.err 1, false, SysctlRes.err 1⟩ [1, 2, 3]
      = CmdlineResult.ok [] :=
  ⟨by decide,
    claim_C10_negative_pid_empty (-5) ⟨SysctlRes.err 1, false, SysctlRes.err 1⟩
      [1, 2, 3] (by decide)⟩

end PsutilFreebsd
